import Mathlib

/-!
Verification of the schema-to-CLI-options derivation in `src/index.ts`
(clim365-zod).  The zod schema tree is embedded as a mutual inductive
(`ZodDef` for typed defs, `ZShape` for an object's ordered field map);
every def carries the mutable `alias` metadata slot that the source's
`alias` helper writes (`type._def.alias = alias`).  The resolver
`parseDef` / `parseObject` pair is a direct functional translation of the
source's dispatch loop, threading the options array and the in-progress
`currentOption` explicitly instead of mutating them in place.
-/

namespace Clim365

/-- Value type of a CLI option, `'string' | 'boolean' | 'number'` in the
source's `OptionInfo` interface. -/
inductive OptType : Type where
  | string
  | boolean
  | number
deriving DecidableEq

/-- The source's `OptionInfo` interface (src/index.ts lines 151-157):
name, optional alias, required flag, optional autocomplete list, type. -/
structure OptionInfo : Type where
  name : String
  alias? : Option String
  required : Bool
  autocomplete : Option (List String)
  type : OptType
deriving DecidableEq

mutual

/-- A zod type def (`z.ZodTypeDef` + its `typeName` discriminant).  Each
constructor corresponds to one `z.ZodFirstPartyTypeKind` handled by
`getParseFn`; `zany` is `ZodAny` (the no-op marker checked by
`parseIntersection`, unhandled by `getParseFn`) and `zunknown` stands for
any other discriminant that `getParseFn` does not recognize.  The first
argument of every constructor is the `alias` slot that the source's
`alias` helper stores on `type._def`. -/
inductive ZodDef : Type where
  | zeffects (al : Option String) (schema : ZodDef)
  | zintersection (al : Option String) (left right : ZodDef)
  | zobject (al : Option String) (shape : ZShape)
  | zstring (al : Option String)
  | znumber (al : Option String)
  | zboolean (al : Option String)
  | zoptional (al : Option String) (innerType : ZodDef)
  | zdefault (al : Option String) (innerType : ZodDef)
  | zenum (al : Option String) (values : List String)
  | znativeEnum (al : Option String) (values : List (String × String))
  | zany (al : Option String)
  | zunknown (al : Option String)

/-- The ordered field map of a `ZodObject` (`def.shape()`): a sequence of
(field key, field def) pairs in declaration order. -/
inductive ZShape : Type where
  | snil
  | scons (key : String) (property : ZodDef) (rest : ZShape)

end

namespace ZodDef

/-- The `alias` metadata recorded on a def (`property._def.alias`). -/
def aliasOf : ZodDef → Option String
  | .zeffects al _ => al
  | .zintersection al _ _ => al
  | .zobject al _ => al
  | .zstring al => al
  | .znumber al => al
  | .zboolean al => al
  | .zoptional al _ => al
  | .zdefault al _ => al
  | .zenum al _ => al
  | .znativeEnum al _ => al
  | .zany al => al
  | .zunknown al => al

/-- Whether the def's discriminant is `ZodAny`, the comparison
`def.left._def.typeName !== z.ZodFirstPartyTypeKind.ZodAny` made by
`parseIntersection`. -/
def isAny : ZodDef → Bool
  | .zany _ => true
  | _ => false

/-- Whether the def's discriminant is `ZodObject`. -/
def isObjectNode : ZodDef → Bool
  | .zobject _ _ => true
  | _ => false

end ZodDef

/-- The source's `alias` helper (src/index.ts lines 6-9): records the
alias on the node's def and returns the node.  Named `withAlias` here. -/
def withAlias (a : String) : ZodDef → ZodDef
  | .zeffects _ schema => .zeffects (some a) schema
  | .zintersection _ left right => .zintersection (some a) left right
  | .zobject _ shape => .zobject (some a) shape
  | .zstring _ => .zstring (some a)
  | .znumber _ => .znumber (some a)
  | .zboolean _ => .zboolean (some a)
  | .zoptional _ innerType => .zoptional (some a) innerType
  | .zdefault _ innerType => .zdefault (some a) innerType
  | .zenum _ values => .zenum (some a) values
  | .znativeEnum _ values => .znativeEnum (some a) values
  | .zany _ => .zany (some a)
  | .zunknown _ => .zunknown (some a)

/-- `parseIntersection` (src/index.ts lines 16-26): return the left
child's def when its discriminant is not `ZodAny`, otherwise the right
child's def when its discriminant is not `ZodAny`, otherwise `undefined`. -/
def parseIntersection (left right : ZodDef) : Option ZodDef :=
  if left.isAny = false then some left
  else if right.isAny = false then some right
  else none

/-- The descriptor created by `parseObject` for a field before the
field's def chain is resolved (src/index.ts lines 33-38):
`{ name: key, alias: property._def.alias, required: true, type: 'string' }`
(no autocomplete). -/
def mkOptionInfo (key : String) (property : ZodDef) : OptionInfo :=
  { name := key, alias? := property.aliasOf, required := true,
    autocomplete := none, type := .string }

mutual

/-- `parseDef` (src/index.ts lines 125-140), with the per-discriminant
handlers from `getParseFn` inlined case by case.  The do-while loop is
realized by structural recursion: each handler either mutates the state
and returns the next def to continue with (here: a recursive call), or
returns `undefined` / is missing from `getParseFn` (here: the loop
breaks and the current state is returned).
* `zeffects` — `parseEffect`: continue with `def.schema._def`.
* `zintersection` — `parseIntersection`: continue with the selected
  child, or break when both children are `ZodAny`.
* `zobject` — `parseObject`: append one descriptor per field, break.
* `zstring` / `znumber` / `zboolean` — `parseString` / `parseNumber` /
  `parseBoolean`: set `currentOption.type` if present, break.
* `zoptional` — `parseOptional`: set `currentOption.required = false` if
  present, continue with `def.innerType._def`.
* `zdefault` — `parseDefault`: continue with `def.innerType._def`.
* `zenum` — `parseEnum`: set `type = string` and `autocomplete =
  def.values` if present, break.
* `znativeEnum` — `parseNativeEnum`: set `type = string` and
  `autocomplete = Object.getOwnPropertyNames(def.values)` (the keys of
  the name-to-value mapping) if present, break.
* `zany` / `zunknown` — no entry in `getParseFn`, break untouched. -/
def parseDef : ZodDef → List OptionInfo → Option OptionInfo → List OptionInfo × Option OptionInfo
  | .zeffects _ schema, options, currentOption => parseDef schema options currentOption
  | .zintersection _ left right, options, currentOption =>
      if left.isAny = false then parseDef left options currentOption
      else if right.isAny = false then parseDef right options currentOption
      else (options, currentOption)
  | .zobject _ shape, options, currentOption => (parseObject shape options, currentOption)
  | .zstring _, options, currentOption =>
      (options, currentOption.map fun o => { o with type := .string })
  | .znumber _, options, currentOption =>
      (options, currentOption.map fun o => { o with type := .number })
  | .zboolean _, options, currentOption =>
      (options, currentOption.map fun o => { o with type := .boolean })
  | .zoptional _ innerType, options, currentOption =>
      parseDef innerType options (currentOption.map fun o => { o with required := false })
  | .zdefault _ innerType, options, currentOption =>
      parseDef innerType options currentOption
  | .zenum _ values, options, currentOption =>
      (options, currentOption.map fun o => { o with type := .string, autocomplete := some values })
  | .znativeEnum _ values, options, currentOption =>
      (options,
       currentOption.map fun o =>
         { o with type := .string, autocomplete := some (values.map Prod.fst) })
  | .zany _, options, currentOption => (options, currentOption)
  | .zunknown _, options, currentOption => (options, currentOption)

/-- `parseObject` (src/index.ts lines 28-45): iterate the field map in
declaration order; for each field create the descriptor
`{ name: key, alias: property._def.alias, required: true, type: 'string' }`,
resolve the field's def against it with `parseDef`, and push the
(possibly mutated) descriptor onto the options array. -/
def parseObject : ZShape → List OptionInfo → List OptionInfo
  | .snil, options => options
  | .scons key property rest, options =>
      let option : OptionInfo := mkOptionInfo key property
      let r := parseDef property options (some option)
      parseObject rest (r.1 ++ [r.2.getD option])

end

/-- `schemaToOptions` (src/index.ts lines 142-146): run `parseDef` on the
schema's root def with an empty options array and no current option. -/
def schemaToOptions (schema : ZodDef) : List OptionInfo :=
  (parseDef schema [] none).1

/-- The ordered (key, def) pairs of a shape, for use in statements. -/
def ZShape.toList : ZShape → List (String × ZodDef)
  | .snil => []
  | .scons key property rest => (key, property) :: ZShape.toList rest

/-- The next def the `parseDef` loop continues with from a given def: the
value returned by the handler `getParseFn` selects (`none` when the
handler is missing from `getParseFn` or returns `undefined`, i.e. the
loop breaks). -/
def nextDef : ZodDef → Option ZodDef
  | .zeffects _ schema => some schema
  | .zintersection _ left right => parseIntersection left right
  | .zoptional _ innerType => some innerType
  | .zdefault _ innerType => some innerType
  | _ => none

/-- Iterate the `parseDef` loop's chain-following `n` times: `some d`
means after `n` steps the loop is still at def `d`; `none` means it has
already broken out. -/
def iterChain : Nat → ZodDef → Option ZodDef
  | 0, d => some d
  | n + 1, d =>
      match nextDef d with
      | some d2 => iterChain n d2
      | none => none

/-- Whether the resolution chain starting at a def never reaches a
`ZodObject` node (following exactly the child selection `parseDef`
performs). -/
def noObjectChain : ZodDef → Bool
  | .zeffects _ schema => noObjectChain schema
  | .zintersection _ left right =>
      if left.isAny = false then noObjectChain left
      else if right.isAny = false then noObjectChain right
      else true
  | .zobject _ _ => false
  | .zoptional _ innerType => noObjectChain innerType
  | .zdefault _ innerType => noObjectChain innerType
  | _ => true

/-- Whether the resolution chain starting at a def never reaches a
`ZodOptional` node (following exactly the child selection `parseDef`
performs). -/
def noOptionalChain : ZodDef → Bool
  | .zeffects _ schema => noOptionalChain schema
  | .zintersection _ left right =>
      if left.isAny = false then noOptionalChain left
      else if right.isAny = false then noOptionalChain right
      else true
  | .zoptional _ _ => false
  | .zdefault _ innerType => noOptionalChain innerType
  | _ => true

/-- A well-formed chain of `n` `ZodOptional` wrappers around a
`ZodString` leaf. -/
def deepOptional : Nat → ZodDef
  | 0 => .zstring none
  | n + 1 => .zoptional none (deepOptional n)

/-- A root object with a single field `x` whose def is a modifier chain
of depth `n`. -/
def deepObj (n : Nat) : ZodDef :=
  .zobject none (.scons "x" (deepOptional n) .snil)

/-!  Tokenizer configuration builder: the pieces of the `parse(...)` call
at src/index.ts lines 251-268, built from the derived `optionsInfo`
table. -/

/-- JavaScript object property assignment `m[k] = v`: overwrite in place
when the key exists (keeping its position), append otherwise.  A JS
object holds at most one entry per key. -/
def objSet (m : List (String × String)) (k v : String) : List (String × String) :=
  if m.any fun p => p.1 == k then m.map fun p => if p.1 == k then (k, v) else p
  else m ++ [(k, v)]

/-- Truthiness of the `alias` slot, as tested by `if (option.alias)`:
`undefined` and the empty string are falsy. -/
def strTruthy : Option String → Bool
  | some a => a != ""
  | none => false

/-- One step of the `reduce` at src/index.ts lines 253-258:
`if (option.alias) { aliases[option.name] = option.alias; } return aliases;`
(`option.alias` is falsy when `undefined` or the empty string). -/
def aliasStep (aliases : List (String × String)) (option : OptionInfo) : List (String × String) :=
  match option.alias? with
  | some a => if a == "" then aliases else objSet aliases option.name a
  | none => aliases

/-- The `alias` entry of the tokenizer configuration (src/index.ts lines
253-258): `optionsInfo.reduce(...)` starting from the empty object. -/
def aliasConfig (optionsInfo : List OptionInfo) : List (String × String) :=
  optionsInfo.foldl aliasStep []

/-- The `boolean` name list of the tokenizer configuration (line 260). -/
def booleanNames (optionsInfo : List OptionInfo) : List String :=
  (optionsInfo.filter fun option => option.type == OptType.boolean).map fun option => option.name

/-- The `number` name list of the tokenizer configuration (line 261). -/
def numberNames (optionsInfo : List OptionInfo) : List String :=
  (optionsInfo.filter fun option => option.type == OptType.number).map fun option => option.name

/-- The `string` name list of the tokenizer configuration (line 262). -/
def stringNames (optionsInfo : List OptionInfo) : List String :=
  (optionsInfo.filter fun option => option.type == OptType.string).map fun option => option.name

/-- Lookup of a key in a JS-object-as-association-list (first matching
entry's value). -/
def lookupStr : List (String × String) → String → Option String
  | [], _ => none
  | p :: m, k => if p.1 == k then some p.2 else lookupStr m k

/-!  The concrete `commandOptions` schema of the source (lines 160-207):
global options (`query`, `output`, `debug`, `verbose`) extended with the
login command's options.  `z.enum(...).optional().default(...)` is a
`ZodDefault` around a `ZodOptional` around the leaf; `.refine` wraps its
subject in `ZodEffects`; `alias(...)` writes the alias slot on the
outermost def it receives.  Used as concrete input in witnesses. -/

/-- The permitted values of the `OutputType` enum (line 160). -/
def outputTypeValues : List String := ["csv", "json", "md", "text", "none"]

/-- The permitted values of the `authType` enum (line 190). -/
def authTypeValues : List String :=
  ["certificate", "deviceCode", "password", "identity", "browser", "secret"]

/-- The `CloudType` native enum as a name-to-value mapping (lines
179-185). -/
def cloudTypeValues : List (String × String) :=
  [("Public", "0"), ("USGov", "1"), ("USGovHigh", "2"), ("USGovDoD", "3"), ("China", "4")]

/-- The field map of `commandOptions` (lines 163-168 and 188-205), in
declaration order. -/
def commandShape : ZShape :=
  .scons "query" (.zoptional none (.zstring none))
  (.scons "output" (.zoptional none (.zenum none outputTypeValues))
  (.scons "debug" (.zdefault none (.zboolean none))
  (.scons "verbose" (.zdefault none (.zboolean none))
  (.scons "authType" (withAlias "t" (.zdefault none (.zoptional none (.zenum none authTypeValues))))
  (.scons "cloud" (.zdefault none (.zoptional none (.znativeEnum none cloudTypeValues)))
  (.scons "userName" (withAlias "u" (.zoptional none (.zstring none)))
  (.scons "password" (withAlias "p" (.zoptional none (.zstring none)))
  (.scons "certificateFile" (withAlias "c" (.zeffects none (.zoptional none (.zstring none))))
  (.scons "certificateBase64Encoded" (.zoptional none (.zstring none))
  (.scons "thumbprint" (.zoptional none (.zstring none))
  (.scons "appId" (.zoptional none (.zstring none))
  (.scons "tenant" (.zoptional none (.zstring none))
  (.scons "secret" (withAlias "s" (.zoptional none (.zstring none)))
  (.scons "dummyNumber" (.zoptional none (.znumber none))
  (.scons "dummyBoolean" (.zoptional none (.zboolean none))
  .snil)))))))))))))))

/-- The `commandOptions` schema root (a strict `ZodObject`). -/
def commandOptions : ZodDef := .zobject none commandShape

/-!  Structural lemmas about the resolver. -/

/-- With no current option, no handler ever creates one: the second
state component stays `none` through the whole chain. -/
theorem parseDef_curr_none : ∀ (d : ZodDef) (opts : List OptionInfo),
    (parseDef d opts none).2 = none
  | .zeffects _ s, opts => by
      simpa [parseDef] using parseDef_curr_none s opts
  | .zintersection _ l r, opts => by
      by_cases hl : l.isAny = false
      · simpa [parseDef, hl] using parseDef_curr_none l opts
      · by_cases hr : r.isAny = false
        · simpa [parseDef, hl, hr] using parseDef_curr_none r opts
        · simp [parseDef, hl, hr]
  | .zobject _ _, opts => by simp [parseDef]
  | .zstring _, opts => by simp [parseDef]
  | .znumber _, opts => by simp [parseDef]
  | .zboolean _, opts => by simp [parseDef]
  | .zoptional _ i, opts => by
      simpa [parseDef] using parseDef_curr_none i opts
  | .zdefault _ i, opts => by
      simpa [parseDef] using parseDef_curr_none i opts
  | .zenum _ _, opts => by simp [parseDef]
  | .znativeEnum _ _, opts => by simp [parseDef]
  | .zany _, opts => by simp [parseDef]
  | .zunknown _, opts => by simp [parseDef]

/-- A present current option stays present, and no handler ever touches
its `name` or `alias` attributes. -/
theorem parseDef_curr_some : ∀ (d : ZodDef) (opts : List OptionInfo) (o : OptionInfo),
    ∃ o2, (parseDef d opts (some o)).2 = some o2 ∧ o2.name = o.name ∧ o2.alias? = o.alias?
  | .zeffects _ s, opts, o => by
      simpa [parseDef] using parseDef_curr_some s opts o
  | .zintersection _ l r, opts, o => by
      by_cases hl : l.isAny = false
      · simpa [parseDef, hl] using parseDef_curr_some l opts o
      · by_cases hr : r.isAny = false
        · simpa [parseDef, hl, hr] using parseDef_curr_some r opts o
        · exact ⟨o, by simp [parseDef, hl, hr], rfl, rfl⟩
  | .zobject _ _, opts, o => ⟨o, by simp [parseDef], rfl, rfl⟩
  | .zstring _, opts, o => ⟨{ o with type := .string }, by simp [parseDef], rfl, rfl⟩
  | .znumber _, opts, o => ⟨{ o with type := .number }, by simp [parseDef], rfl, rfl⟩
  | .zboolean _, opts, o => ⟨{ o with type := .boolean }, by simp [parseDef], rfl, rfl⟩
  | .zoptional _ i, opts, o => by
      simpa [parseDef] using parseDef_curr_some i opts { o with required := false }
  | .zdefault _ i, opts, o => by
      simpa [parseDef] using parseDef_curr_some i opts o
  | .zenum _ vs, opts, o =>
      ⟨{ o with type := .string, autocomplete := some vs }, by simp [parseDef], rfl, rfl⟩
  | .znativeEnum _ vs, opts, o =>
      ⟨{ o with type := .string, autocomplete := some (vs.map Prod.fst) },
        by simp [parseDef], rfl, rfl⟩
  | .zany _, opts, o => ⟨o, by simp [parseDef], rfl, rfl⟩
  | .zunknown _, opts, o => ⟨o, by simp [parseDef], rfl, rfl⟩

/-- The final current option does not depend on the options array the
resolver is run with. -/
theorem parseDef_opts_indep : ∀ (d : ZodDef) (opts opts2 : List OptionInfo)
    (curr : Option OptionInfo),
    (parseDef d opts curr).2 = (parseDef d opts2 curr).2
  | .zeffects _ s, opts, opts2, curr => by
      simpa [parseDef] using parseDef_opts_indep s opts opts2 curr
  | .zintersection _ l r, opts, opts2, curr => by
      by_cases hl : l.isAny = false
      · simpa [parseDef, hl] using parseDef_opts_indep l opts opts2 curr
      · by_cases hr : r.isAny = false
        · simpa [parseDef, hl, hr] using parseDef_opts_indep r opts opts2 curr
        · simp [parseDef, hl, hr]
  | .zobject _ _, opts, opts2, curr => by simp [parseDef]
  | .zstring _, opts, opts2, curr => by simp [parseDef]
  | .znumber _, opts, opts2, curr => by simp [parseDef]
  | .zboolean _, opts, opts2, curr => by simp [parseDef]
  | .zoptional _ i, opts, opts2, curr => by
      simpa [parseDef] using parseDef_opts_indep i opts opts2 (curr.map fun o => { o with required := false })
  | .zdefault _ i, opts, opts2, curr => by
      simpa [parseDef] using parseDef_opts_indep i opts opts2 curr
  | .zenum _ _, opts, opts2, curr => by simp [parseDef]
  | .znativeEnum _ _, opts, opts2, curr => by simp [parseDef]
  | .zany _, opts, opts2, curr => by simp [parseDef]
  | .zunknown _, opts, opts2, curr => by simp [parseDef]

/-- When the resolution chain never reaches a `ZodObject`, the resolver
appends nothing to the options array. -/
theorem parseDef_noappend : ∀ (d : ZodDef), noObjectChain d = true →
    ∀ (opts : List OptionInfo) (curr : Option OptionInfo),
    (parseDef d opts curr).1 = opts
  | .zeffects _ s, h, opts, curr => by
      rw [noObjectChain] at h
      simpa [parseDef] using parseDef_noappend s h opts curr
  | .zintersection _ l r, h, opts, curr => by
      rw [noObjectChain] at h
      by_cases hl : l.isAny = false
      · rw [if_pos hl] at h
        simpa [parseDef, hl] using parseDef_noappend l h opts curr
      · by_cases hr : r.isAny = false
        · rw [if_neg hl, if_pos hr] at h
          simpa [parseDef, hl, hr] using parseDef_noappend r h opts curr
        · simp [parseDef, hl, hr]
  | .zstring _, _, opts, curr => by simp [parseDef]
  | .znumber _, _, opts, curr => by simp [parseDef]
  | .zboolean _, _, opts, curr => by simp [parseDef]
  | .zoptional _ i, h, opts, curr => by
      rw [noObjectChain] at h
      simpa [parseDef] using parseDef_noappend i h opts (curr.map fun o => { o with required := false })
  | .zdefault _ i, h, opts, curr => by
      rw [noObjectChain] at h
      simpa [parseDef] using parseDef_noappend i h opts curr
  | .zenum _ _, _, opts, curr => by simp [parseDef]
  | .znativeEnum _ _, _, opts, curr => by simp [parseDef]
  | .zany _, _, opts, curr => by simp [parseDef]
  | .zunknown _, _, opts, curr => by simp [parseDef]

/-- Once the required flag is `false`, no handler sets it back: the
resolved descriptor keeps `required = false`. -/
theorem parseDef_required_false : ∀ (d : ZodDef) (opts : List OptionInfo) (o : OptionInfo),
    o.required = false →
    ((parseDef d opts (some o)).2.map fun x => x.required) = some false
  | .zeffects _ s, opts, o, h => by
      simpa [parseDef] using parseDef_required_false s opts o h
  | .zintersection _ l r, opts, o, h => by
      by_cases hl : l.isAny = false
      · simpa [parseDef, hl] using parseDef_required_false l opts o h
      · by_cases hr : r.isAny = false
        · simpa [parseDef, hl, hr] using parseDef_required_false r opts o h
        · simp [parseDef, hl, hr, h]
  | .zobject _ _, opts, o, h => by simp [parseDef, h]
  | .zstring _, opts, o, h => by simp [parseDef, h]
  | .znumber _, opts, o, h => by simp [parseDef, h]
  | .zboolean _, opts, o, h => by simp [parseDef, h]
  | .zoptional _ i, opts, o, h => by
      simpa [parseDef] using parseDef_required_false i opts { o with required := false } rfl
  | .zdefault _ i, opts, o, h => by
      simpa [parseDef] using parseDef_required_false i opts o h
  | .zenum _ _, opts, o, h => by simp [parseDef, h]
  | .znativeEnum _ _, opts, o, h => by simp [parseDef, h]
  | .zany _, opts, o, h => by simp [parseDef, h]
  | .zunknown _, opts, o, h => by simp [parseDef, h]

/-- When the resolution chain never reaches a `ZodOptional`, the
required flag of the descriptor is left exactly as it started. -/
theorem parseDef_required_pres : ∀ (d : ZodDef), noOptionalChain d = true →
    ∀ (opts : List OptionInfo) (o : OptionInfo),
    ((parseDef d opts (some o)).2.map fun x => x.required) = some o.required
  | .zeffects _ s, h, opts, o => by
      rw [noOptionalChain] at h
      simpa [parseDef] using parseDef_required_pres s h opts o
  | .zintersection _ l r, h, opts, o => by
      rw [noOptionalChain] at h
      by_cases hl : l.isAny = false
      · rw [if_pos hl] at h
        simpa [parseDef, hl] using parseDef_required_pres l h opts o
      · by_cases hr : r.isAny = false
        · rw [if_neg hl, if_pos hr] at h
          simpa [parseDef, hl, hr] using parseDef_required_pres r h opts o
        · simp [parseDef, hl, hr]
  | .zobject _ _, _, opts, o => by simp [parseDef]
  | .zstring _, _, opts, o => by simp [parseDef]
  | .znumber _, _, opts, o => by simp [parseDef]
  | .zboolean _, _, opts, o => by simp [parseDef]
  | .zdefault _ i, h, opts, o => by
      rw [noOptionalChain] at h
      simpa [parseDef] using parseDef_required_pres i h opts o
  | .zenum _ _, _, opts, o => by simp [parseDef]
  | .znativeEnum _ _, _, opts, o => by simp [parseDef]
  | .zany _, _, opts, o => by simp [parseDef]
  | .zunknown _, _, opts, o => by simp [parseDef]

/-- The resolved `type` and `autocomplete` attributes depend only on the
starting descriptor's `type` and `autocomplete` (not on its required
flag, name or alias). -/
theorem parseDef_ta_indep : ∀ (d : ZodDef) (opts : List OptionInfo) (o1 o2 : OptionInfo),
    o1.type = o2.type → o1.autocomplete = o2.autocomplete →
    ((parseDef d opts (some o1)).2.map fun x => (x.type, x.autocomplete)) =
      ((parseDef d opts (some o2)).2.map fun x => (x.type, x.autocomplete))
  | .zeffects _ s, opts, o1, o2, h1, h2 => by
      simpa [parseDef] using parseDef_ta_indep s opts o1 o2 h1 h2
  | .zintersection _ l r, opts, o1, o2, h1, h2 => by
      by_cases hl : l.isAny = false
      · simpa [parseDef, hl] using parseDef_ta_indep l opts o1 o2 h1 h2
      · by_cases hr : r.isAny = false
        · simpa [parseDef, hl, hr] using parseDef_ta_indep r opts o1 o2 h1 h2
        · simp [parseDef, hl, hr, h1, h2]
  | .zobject _ _, opts, o1, o2, h1, h2 => by simp [parseDef, h1, h2]
  | .zstring _, opts, o1, o2, h1, h2 => by simp [parseDef, h1, h2]
  | .znumber _, opts, o1, o2, h1, h2 => by simp [parseDef, h1, h2]
  | .zboolean _, opts, o1, o2, h1, h2 => by simp [parseDef, h1, h2]
  | .zoptional _ i, opts, o1, o2, h1, h2 => by
      simpa [parseDef] using
        parseDef_ta_indep i opts { o1 with required := false } { o2 with required := false } h1 h2
  | .zdefault _ i, opts, o1, o2, h1, h2 => by
      simpa [parseDef] using parseDef_ta_indep i opts o1 o2 h1 h2
  | .zenum _ _, opts, o1, o2, h1, h2 => by simp [parseDef]
  | .znativeEnum _ _, opts, o1, o2, h1, h2 => by simp [parseDef]
  | .zany _, opts, o1, o2, h1, h2 => by simp [parseDef, h1, h2]
  | .zunknown _, opts, o1, o2, h1, h2 => by simp [parseDef, h1, h2]

mutual

/-- The resolver only ever appends to the options array: running it on
`opts` yields `opts` followed by whatever it produces from scratch. -/
theorem parseDef_append : ∀ (d : ZodDef) (opts : List OptionInfo) (curr : Option OptionInfo),
    (parseDef d opts curr).1 = opts ++ (parseDef d [] curr).1
  | .zeffects _ s, opts, curr => by
      simpa [parseDef] using parseDef_append s opts curr
  | .zintersection _ l r, opts, curr => by
      by_cases hl : l.isAny = false
      · simpa [parseDef, hl] using parseDef_append l opts curr
      · by_cases hr : r.isAny = false
        · simpa [parseDef, hl, hr] using parseDef_append r opts curr
        · simp [parseDef, hl, hr]
  | .zobject _ shape, opts, curr => by
      simpa [parseDef] using parseObject_append shape opts
  | .zstring _, opts, curr => by simp [parseDef]
  | .znumber _, opts, curr => by simp [parseDef]
  | .zboolean _, opts, curr => by simp [parseDef]
  | .zoptional _ i, opts, curr => by
      simpa [parseDef] using parseDef_append i opts (curr.map fun o => { o with required := false })
  | .zdefault _ i, opts, curr => by
      simpa [parseDef] using parseDef_append i opts curr
  | .zenum _ _, opts, curr => by simp [parseDef]
  | .znativeEnum _ _, opts, curr => by simp [parseDef]
  | .zany _, opts, curr => by simp [parseDef]
  | .zunknown _, opts, curr => by simp [parseDef]

/-- `parseObject` only ever appends to the options array. -/
theorem parseObject_append : ∀ (shape : ZShape) (opts : List OptionInfo),
    parseObject shape opts = opts ++ parseObject shape []
  | .snil, opts => by simp [parseObject]
  | .scons key property rest, opts => by
      have hself := parseObject_append rest
      have h1 := parseDef_append property opts (some (mkOptionInfo key property))
      have h2 := parseDef_opts_indep property opts [] (some (mkOptionInfo key property))
      simp only [parseObject]
      rw [h1, h2,
        hself ((opts ++ (parseDef property [] (some (mkOptionInfo key property))).1) ++
          [(parseDef property [] (some (mkOptionInfo key property))).2.getD (mkOptionInfo key property)]),
        hself ((parseDef property [] (some (mkOptionInfo key property))).1 ++
          [(parseDef property [] (some (mkOptionInfo key property))).2.getD (mkOptionInfo key property)])]
      simp

end

/-- When no field's chain reaches a nested `ZodObject`, `parseObject`
appends exactly one descriptor per field, in declaration order: the
default descriptor created by `mkOptionInfo`, mutated by that field's
resolution chain alone. -/
theorem parseObject_characterization : ∀ (shape : ZShape) (opts : List OptionInfo),
    (shape.toList.all fun kd => noObjectChain kd.2) = true →
    parseObject shape opts = opts ++
      shape.toList.map (fun kd =>
        (parseDef kd.2 [] (some (mkOptionInfo kd.1 kd.2))).2.getD (mkOptionInfo kd.1 kd.2))
  | .snil, opts, _ => by simp [parseObject, ZShape.toList]
  | .scons key property rest, opts, h => by
      rw [ZShape.toList, List.all_cons, Bool.and_eq_true] at h
      have hprop : noObjectChain property = true := h.1
      have hrest : (rest.toList.all fun kd => noObjectChain kd.2) = true := h.2
      have h1 := parseDef_noappend property hprop opts (some (mkOptionInfo key property))
      have h2 := parseDef_opts_indep property opts [] (some (mkOptionInfo key property))
      simp only [parseObject]
      rw [h1, h2, parseObject_characterization rest
        (opts ++ [(parseDef property [] (some (mkOptionInfo key property))).2.getD
          (mkOptionInfo key property)]) hrest]
      simp [ZShape.toList]

/-- The chain-following loop of `parseDef` halts on every (finite,
acyclic) schema def: some number of steps reaches the break. -/
theorem iterChain_halts : ∀ (d : ZodDef), ∃ n, iterChain n d = none
  | .zeffects _ s => by
      obtain ⟨n, hn⟩ := iterChain_halts s
      exact ⟨n + 1, by simpa [iterChain, nextDef] using hn⟩
  | .zintersection _ l r => by
      by_cases hl : l.isAny = false
      · obtain ⟨n, hn⟩ := iterChain_halts l
        exact ⟨n + 1, by simpa [iterChain, nextDef, parseIntersection, hl] using hn⟩
      · by_cases hr : r.isAny = false
        · obtain ⟨n, hn⟩ := iterChain_halts r
          exact ⟨n + 1, by simpa [iterChain, nextDef, parseIntersection, hl, hr] using hn⟩
        · exact ⟨1, by simp [iterChain, nextDef, parseIntersection, hl, hr]⟩
  | .zobject _ _ => ⟨1, by simp [iterChain, nextDef]⟩
  | .zstring _ => ⟨1, by simp [iterChain, nextDef]⟩
  | .znumber _ => ⟨1, by simp [iterChain, nextDef]⟩
  | .zboolean _ => ⟨1, by simp [iterChain, nextDef]⟩
  | .zoptional _ i => by
      obtain ⟨n, hn⟩ := iterChain_halts i
      exact ⟨n + 1, by simpa [iterChain, nextDef] using hn⟩
  | .zdefault _ i => by
      obtain ⟨n, hn⟩ := iterChain_halts i
      exact ⟨n + 1, by simpa [iterChain, nextDef] using hn⟩
  | .zenum _ _ => ⟨1, by simp [iterChain, nextDef]⟩
  | .znativeEnum _ _ => ⟨1, by simp [iterChain, nextDef]⟩
  | .zany _ => ⟨1, by simp [iterChain, nextDef]⟩
  | .zunknown _ => ⟨1, by simp [iterChain, nextDef]⟩

/-!  Lemmas about the JS-object semantics used by the tokenizer
configuration builder. -/

/-- Overwriting the value at an existing key leaves the key sequence
unchanged. -/
theorem overwrite_keys (k v : String) : ∀ (m : List (String × String)),
    ((m.map fun p => if p.1 == k then (k, v) else p).map Prod.fst) = m.map Prod.fst
  | [] => rfl
  | p :: m => by
      rw [List.map_cons, List.map_cons, List.map_cons, overwrite_keys k v m]
      by_cases hp : (p.1 == k) = true
      · rw [if_pos hp]
        have hpk : p.1 = k := eq_of_beq hp
        rw [hpk]
      · rw [if_neg hp]

/-- JS object assignment keeps keys unique. -/
theorem objSet_keys_nodup {m : List (String × String)} (k v : String)
    (hn : (m.map Prod.fst).Nodup) : ((objSet m k v).map Prod.fst).Nodup := by
  by_cases hc : (m.any fun p => p.1 == k) = true
  · rw [objSet, if_pos hc, overwrite_keys]
    exact hn
  · rw [objSet, if_neg hc, List.map_append]
    rw [List.nodup_append]
    refine ⟨hn, by simp, ?_⟩
    intro a ha hb
    simp only [List.map_cons, List.map_nil, List.mem_singleton] at hb
    subst hb
    obtain ⟨p, hp, hpk⟩ := List.mem_map.mp ha
    exact hc (List.any_eq_true.mpr ⟨p, hp, by simp [hpk]⟩)

/-- Appending a fresh entry makes its key resolvable. -/
theorem lookupStr_append_single_self : ∀ (m : List (String × String)) (k v : String),
    (m.any fun p => p.1 == k) = false → lookupStr (m ++ [(k, v)]) k = some v
  | [], k, v, _ => by simp [lookupStr]
  | p :: m, k, v, hc => by
      rw [List.any_cons, Bool.or_eq_false_iff] at hc
      simpa [lookupStr, hc.1] using lookupStr_append_single_self m k v hc.2

/-- Overwriting an existing key makes it resolve to the new value. -/
theorem lookupStr_overwrite_self : ∀ (m : List (String × String)) (k v : String),
    (m.any fun p => p.1 == k) = true →
    lookupStr (m.map fun p => if p.1 == k then (k, v) else p) k = some v
  | [], _, _, hc => by simp at hc
  | p :: m, k, v, hc => by
      rw [List.any_cons, Bool.or_eq_true] at hc
      by_cases hp : (p.1 == k) = true
      · simp [lookupStr, hp]
      · have hm := hc.resolve_left hp
        simpa [lookupStr, hp] using lookupStr_overwrite_self m k v hm

/-- JS object assignment `m[k] = v` makes `k` resolve to `v`. -/
theorem lookupStr_objSet_self (m : List (String × String)) (k v : String) :
    lookupStr (objSet m k v) k = some v := by
  by_cases hc : (m.any fun p => p.1 == k) = true
  · rw [objSet, if_pos hc]
    exact lookupStr_overwrite_self m k v hc
  · rw [objSet, if_neg hc]
    exact lookupStr_append_single_self m k v (Bool.eq_false_iff.mpr hc)

/-- Appending an entry for a different key does not change a lookup. -/
theorem lookupStr_append_single_other : ∀ (m : List (String × String)) (k v k2 : String),
    k2 ≠ k → lookupStr (m ++ [(k, v)]) k2 = lookupStr m k2
  | [], k, v, k2, hne => by simp [lookupStr, Ne.symm hne]
  | p :: m, k, v, k2, hne => by
      by_cases hp : (p.1 == k2) = true
      · simp [lookupStr, hp]
      · simpa [lookupStr, hp] using lookupStr_append_single_other m k v k2 hne

/-- Overwriting one key does not change a lookup of a different key. -/
theorem lookupStr_overwrite_other : ∀ (m : List (String × String)) (k v k2 : String),
    k2 ≠ k → lookupStr (m.map fun p => if p.1 == k then (k, v) else p) k2 = lookupStr m k2
  | [], _, _, _, _ => by simp [lookupStr]
  | p :: m, k, v, k2, hne => by
      by_cases hp : (p.1 == k) = true
      · have hpk : p.1 = k := eq_of_beq hp
        have hk2 : ¬ (k == k2) = true := by simp [Ne.symm hne]
        have hp2 : ¬ (p.1 == k2) = true := by simp [hpk, Ne.symm hne]
        simpa [lookupStr, hp, hk2, hp2] using lookupStr_overwrite_other m k v k2 hne
      · by_cases hp2 : (p.1 == k2) = true
        · simp [lookupStr, hp, hp2]
        · simpa [lookupStr, hp, hp2] using lookupStr_overwrite_other m k v k2 hne

/-- JS object assignment at one key does not change a lookup of a
different key. -/
theorem lookupStr_objSet_other (m : List (String × String)) (k v k2 : String) (hne : k2 ≠ k) :
    lookupStr (objSet m k v) k2 = lookupStr m k2 := by
  by_cases hc : (m.any fun p => p.1 == k) = true
  · rw [objSet, if_pos hc]
    exact lookupStr_overwrite_other m k v k2 hne
  · rw [objSet, if_neg hc]
    exact lookupStr_append_single_other m k v k2 hne

/-- The alias `reduce` keeps the accumulated object's keys unique. -/
theorem aliasFold_keys_nodup : ∀ (t : List OptionInfo) (acc : List (String × String)),
    (acc.map Prod.fst).Nodup → ((t.foldl aliasStep acc).map Prod.fst).Nodup
  | [], _, h => h
  | o :: t, acc, h => by
      rw [List.foldl_cons]
      apply aliasFold_keys_nodup t
      unfold aliasStep
      cases o.alias? with
      | none => exact h
      | some a =>
          by_cases ha : (a == "") = true
          · simpa [ha] using h
          · simpa [ha] using objSet_keys_nodup o.name a h

/-- Options whose names differ from `k` leave the entry for `k`
untouched. -/
theorem aliasFold_lookup_skip : ∀ (t : List OptionInfo) (acc : List (String × String)) (k : String),
    (∀ o ∈ t, o.name ≠ k) → lookupStr (t.foldl aliasStep acc) k = lookupStr acc k
  | [], _, _, _ => rfl
  | o :: t, acc, k, h => by
      rw [List.foldl_cons,
        aliasFold_lookup_skip t (aliasStep acc o) k fun o2 h2 => h o2 (List.mem_cons_of_mem _ h2)]
      rcases hal : o.alias? with _ | a
      · rw [show aliasStep acc o = acc from by simp [aliasStep, hal]]
      · by_cases ha : (a == "") = true
        · rw [show aliasStep acc o = acc from by simp [aliasStep, hal, ha]]
        · rw [show aliasStep acc o = objSet acc o.name a from by simp [aliasStep, hal, ha]]
          exact lookupStr_objSet_other acc o.name a k (Ne.symm (h o (List.mem_cons_self o t)))

/-- In a table with unique names, the alias map resolves each option's
name to its alias exactly when that alias is truthy. -/
theorem aliasFold_lookup : ∀ (t : List OptionInfo) (acc : List (String × String)) (o : OptionInfo),
    o ∈ t → (t.map fun x => x.name).Nodup → lookupStr acc o.name = none →
    lookupStr (t.foldl aliasStep acc) o.name =
      (match o.alias? with
       | some a => if a == "" then none else some a
       | none => none)
  | [], _, o, hmem, _, _ => absurd hmem (List.not_mem_nil o)
  | h0 :: t, acc, o, hmem, hnd, hacc => by
      rw [List.map_cons, List.nodup_cons] at hnd
      rcases List.mem_cons.mp hmem with heq | hmem2
      · subst heq
        rw [List.foldl_cons]
        have hskip : ∀ o2 ∈ t, o2.name ≠ o.name := by
          intro o2 h2 he
          exact hnd.1 (he ▸ List.mem_map_of_mem (fun x => x.name) h2)
        rw [aliasFold_lookup_skip t (aliasStep acc o) o.name hskip]
        rcases hal : o.alias? with _ | a
        · rw [show aliasStep acc o = acc from by simp [aliasStep, hal]]
          exact hacc
        · by_cases ha : (a == "") = true
          · rw [show aliasStep acc o = acc from by simp [aliasStep, hal, ha]]
            simpa [ha] using hacc
          · rw [show aliasStep acc o = objSet acc o.name a from by simp [aliasStep, hal, ha]]
            simpa [ha] using lookupStr_objSet_self acc o.name a
      · rw [List.foldl_cons]
        have hne : o.name ≠ h0.name := by
          intro he
          exact hnd.1 (he ▸ List.mem_map_of_mem (fun x => x.name) hmem2)
        apply aliasFold_lookup t (aliasStep acc h0) o hmem2 hnd.2
        rcases hal : h0.alias? with _ | a
        · rw [show aliasStep acc h0 = acc from by simp [aliasStep, hal]]
          exact hacc
        · by_cases ha : (a == "") = true
          · rw [show aliasStep acc h0 = acc from by simp [aliasStep, hal, ha]]
            exact hacc
          · rw [show aliasStep acc h0 = objSet acc h0.name a from by simp [aliasStep, hal, ha],
              lookupStr_objSet_other acc h0.name a o.name hne]
            exact hacc

/-- Membership of an option's name in a filtered name list, given unique
names: the name is listed exactly when the option satisfies the filter. -/
theorem mem_filterName (t : List OptionInfo) (p : OptionInfo → Bool)
    (hnd : (t.map fun x => x.name).Nodup) (o : OptionInfo) (ho : o ∈ t) :
    (o.name ∈ (t.filter p).map fun x => x.name) ↔ p o = true := by
  constructor
  · intro hmem
    obtain ⟨o2, ho2, hname⟩ := List.mem_map.mp hmem
    rw [List.mem_filter] at ho2
    have he : o2 = o := List.inj_on_of_nodup_map hnd ho2.1 ho hname
    rw [← he]
    exact ho2.2
  · intro hp
    exact List.mem_map_of_mem _ (List.mem_filter.mpr ⟨ho, hp⟩)

/-- When the resolution chain does reach a `ZodOptional`, the resolved
descriptor always ends up with `required = false`. -/
theorem parseDef_required_of_optional_chain : ∀ (d : ZodDef), noOptionalChain d = false →
    ∀ (opts : List OptionInfo) (o : OptionInfo),
    ((parseDef d opts (some o)).2.map fun x => x.required) = some false
  | .zeffects _ s, h, opts, o => by
      rw [noOptionalChain] at h
      simpa [parseDef] using parseDef_required_of_optional_chain s h opts o
  | .zintersection _ l r, h, opts, o => by
      rw [noOptionalChain] at h
      by_cases hl : l.isAny = false
      · rw [if_pos hl] at h
        simpa [parseDef, hl] using parseDef_required_of_optional_chain l h opts o
      · by_cases hr : r.isAny = false
        · rw [if_neg hl, if_pos hr] at h
          simpa [parseDef, hl, hr] using parseDef_required_of_optional_chain r h opts o
        · rw [if_neg hl, if_neg hr] at h
          exact absurd h (by simp)
  | .zobject _ _, h, _, _ => Bool.noConfusion h
  | .zstring _, h, _, _ => Bool.noConfusion h
  | .znumber _, h, _, _ => Bool.noConfusion h
  | .zboolean _, h, _, _ => Bool.noConfusion h
  | .zoptional _ i, _, opts, o => by
      simpa [parseDef] using parseDef_required_false i opts { o with required := false } rfl
  | .zdefault _ i, h, opts, o => by
      rw [noOptionalChain] at h
      simpa [parseDef] using parseDef_required_of_optional_chain i h opts o
  | .zenum _ _, h, _, _ => Bool.noConfusion h
  | .znativeEnum _ _, h, _, _ => Bool.noConfusion h
  | .zany _, h, _, _ => Bool.noConfusion h
  | .zunknown _, h, _, _ => Bool.noConfusion h

/-- Resolving a chain of `n + 1` Optional wrappers around a String leaf
marks the descriptor not-required and resolves its type to string,
appending nothing. -/
theorem parseDef_deepOptional : ∀ (n : Nat) (opts : List OptionInfo) (o : OptionInfo),
    parseDef (deepOptional (n + 1)) opts (some o) =
      (opts, some { o with required := false, type := .string })
  | 0, opts, o => by simp [deepOptional, parseDef]
  | n + 1, opts, o => by
      have ih := parseDef_deepOptional n opts { o with required := false }
      simp only [deepOptional, parseDef, Option.map_some'] at ih ⊢
      simpa [deepOptional] using ih

/-- A chain of `n` Optional wrappers under a one-field root object
resolves to a complete one-entry table at every depth `n`, with
`required = false` as soon as one wrapper is present. -/
theorem schemaToOptions_deepObj : ∀ (n : Nat),
    schemaToOptions (deepObj n) =
      [{ name := "x", alias? := none, required := n == 0, autocomplete := none,
         type := .string }]
  | 0 => rfl
  | n + 1 => by
      have h := parseDef_deepOptional n []
        { name := "x", alias? := none, required := true, autocomplete := none, type := .string }
      have hmk : mkOptionInfo "x" (deepOptional (n + 1)) =
          { name := "x", alias? := none, required := true, autocomplete := none,
            type := .string } := by
        simp [mkOptionInfo, deepOptional, ZodDef.aliasOf]
      have hbeq : ((n + 1 : Nat) == 0) = false := rfl
      show parseObject (.scons "x" (deepOptional (n + 1)) .snil) [] = _
      simp only [parseObject]
      rw [hmk, h, hbeq]
      simp

/-!  Claim theorems. -/

/-- A root object whose single declared field is itself an object: the
nested object's field is projected into the same options array. -/
def nestedObjectSchema : ZodDef :=
  .zobject none (.scons "x" (.zobject none (.scons "y" (.zstring none) .snil)) .snil)

/-- C1, counterexample: for the root object `{ x: { y: string } }` with
exactly one declared field `x`, `schemaToOptions` produces TWO
descriptors, named `y` then `x` — not exactly one descriptor per
declared field in declaration order as the claim states for every root
object. -/
theorem c1_option_projection_counterexample :
    (schemaToOptions nestedObjectSchema).map (fun o => o.name) = ["y", "x"] ∧
    (schemaToOptions nestedObjectSchema).map (fun o => o.name) ≠ ["x"] := by
  decide

/-- C1 (amended: restricted to root objects none of whose fields'
resolution chains reach a nested Object node): `schemaToOptions`
produces exactly one Option Descriptor per declared field, in the field
map's declaration order; each descriptor is created by `mkOptionInfo`
(required = true, type string, no autocomplete, name equal to the field
key, alias equal to the alias recorded on the field's node, unset if
none) and then mutated only by that field's own resolution chain; in
particular the final names are the field keys in order and the final
aliases are the recorded ones. -/
theorem c1_option_projection (al : Option String) (shape : ZShape)
    (h : (shape.toList.all fun kd => noObjectChain kd.2) = true) :
    schemaToOptions (.zobject al shape) =
      shape.toList.map (fun kd =>
        (parseDef kd.2 [] (some (mkOptionInfo kd.1 kd.2))).2.getD (mkOptionInfo kd.1 kd.2)) ∧
    (schemaToOptions (.zobject al shape)).map (fun o => o.name) =
      shape.toList.map (fun kd => kd.1) ∧
    (schemaToOptions (.zobject al shape)).map (fun o => o.alias?) =
      shape.toList.map (fun kd => kd.2.aliasOf) := by
  have hmain : schemaToOptions (.zobject al shape) =
      shape.toList.map (fun kd =>
        (parseDef kd.2 [] (some (mkOptionInfo kd.1 kd.2))).2.getD (mkOptionInfo kd.1 kd.2)) := by
    show (parseDef (.zobject al shape) [] none).1 = _
    simp only [parseDef]
    rw [parseObject_characterization shape [] h]
    simp
  refine ⟨hmain, ?_, ?_⟩
  · rw [hmain, List.map_map]
    apply List.map_congr_left
    intro kd _
    obtain ⟨o2, h2, hn, _⟩ := parseDef_curr_some kd.2 [] (mkOptionInfo kd.1 kd.2)
    simp only [Function.comp_apply]
    rw [h2, Option.getD_some, hn]
    rfl
  · rw [hmain, List.map_map]
    apply List.map_congr_left
    intro kd _
    obtain ⟨o2, h2, _, ha⟩ := parseDef_curr_some kd.2 [] (mkOptionInfo kd.1 kd.2)
    simp only [Function.comp_apply]
    rw [h2, Option.getD_some, ha]
    rfl

/-- C1, witness: the amended theorem applied to the source's
`commandOptions` root object: the sixteen descriptors carry the field
keys in declaration order and exactly the recorded aliases. -/
theorem c1_option_projection_witness :
    (schemaToOptions (.zobject none commandShape)).map (fun o => o.name) =
      commandShape.toList.map (fun kd => kd.1) ∧
    (schemaToOptions (.zobject none commandShape)).map (fun o => o.alias?) =
      commandShape.toList.map (fun kd => kd.2.aliasOf) :=
  ⟨(c1_option_projection none commandShape (by decide)).2.1,
   (c1_option_projection none commandShape (by decide)).2.2⟩

/-- C2: resolving an Optional wrapper marks the descriptor
`required = false` and continues with the wrapper's child, so the
resolved `type` and `autocomplete` are the same as when resolving the
unwrapped child directly; moreover whenever the resolution chain
contains an Optional wrapper anywhere, the final descriptor has
`required = false`. -/
theorem c2_optional_wrapper (al : Option String) (inner d : ZodDef)
    (opts : List OptionInfo) (o : OptionInfo) :
    (∃ o2, (parseDef (.zoptional al inner) opts (some o)).2 = some o2 ∧
      o2.required = false ∧
      some o2.type = ((parseDef inner opts (some o)).2.map fun x => x.type) ∧
      some o2.autocomplete =
        ((parseDef inner opts (some o)).2.map fun x => x.autocomplete)) ∧
    (noOptionalChain d = false →
      ((parseDef d opts (some o)).2.map fun x => x.required) = some false) := by
  constructor
  · have hstep : parseDef (.zoptional al inner) opts (some o) =
        parseDef inner opts (some { o with required := false }) := by
      simp [parseDef]
    obtain ⟨o2, h2, hn, ha⟩ := parseDef_curr_some inner opts { o with required := false }
    have hreq := parseDef_required_false inner opts { o with required := false } rfl
    have hta := parseDef_ta_indep inner opts { o with required := false } o rfl rfl
    rw [h2] at hreq hta
    refine ⟨o2, by rw [hstep]; exact h2, by simpa using hreq, ?_, ?_⟩
    · cases hr : (parseDef inner opts (some o)).2 with
      | none => rw [hr] at hta; simp at hta
      | some o3 =>
          rw [hr] at hta
          simp only [Option.map_some', Option.some.injEq, Prod.mk.injEq] at hta
          simp [hta.1]
    · cases hr : (parseDef inner opts (some o)).2 with
      | none => rw [hr] at hta; simp at hta
      | some o3 =>
          rw [hr] at hta
          simp only [Option.map_some', Option.some.injEq, Prod.mk.injEq] at hta
          simp [hta.2]
  · intro h
    exact parseDef_required_of_optional_chain d h opts o

/-- C2, witness: resolving `t.string().optional()` from the default
descriptor of field `q` yields `required = false` with type string, and
the deeper chain `t.boolean().optional().default(false)`-style
(`zdefault` over `zoptional`) also ends `required = false`. -/
theorem c2_optional_wrapper_witness :
    (∃ o2, (parseDef (.zoptional none (.zstring none)) []
        (some (mkOptionInfo "q" (.zoptional none (.zstring none))))).2 = some o2 ∧
      o2.required = false ∧
      some o2.type = ((parseDef (.zstring none) []
        (some (mkOptionInfo "q" (.zoptional none (.zstring none))))).2.map fun x => x.type) ∧
      some o2.autocomplete = ((parseDef (.zstring none) []
        (some (mkOptionInfo "q" (.zoptional none (.zstring none))))).2.map
          fun x => x.autocomplete)) ∧
    ((parseDef (.zdefault none (.zoptional none (.zboolean none))) []
        (some (mkOptionInfo "q" (.zoptional none (.zstring none))))).2.map
      fun x => x.required) = some false :=
  ⟨(c2_optional_wrapper none (.zstring none) (.zstring none) []
      (mkOptionInfo "q" (.zoptional none (.zstring none)))).1,
   (c2_optional_wrapper none (.zstring none)
      (.zdefault none (.zoptional none (.zboolean none))) []
      (mkOptionInfo "q" (.zoptional none (.zstring none)))).2 rfl⟩

/-- C3: resolving a Default wrapper continues with its child and leaves
the required flag exactly as previously set; in particular a field whose
chain contains no Optional wrapper (wrapped only in Default) keeps
`required = true`. -/
theorem c3_default_wrapper (al : Option String) (inner : ZodDef) :
    (∀ (opts : List OptionInfo) (curr : Option OptionInfo),
      parseDef (.zdefault al inner) opts curr = parseDef inner opts curr) ∧
    (∀ (opts : List OptionInfo) (o : OptionInfo),
      noOptionalChain (.zdefault al inner) = true → o.required = true →
      ((parseDef (.zdefault al inner) opts (some o)).2.map fun x => x.required) =
        some true) := by
  constructor
  · intro opts curr
    simp [parseDef]
  · intro opts o hchain hreq
    rw [parseDef_required_pres (.zdefault al inner) hchain opts o, hreq]

/-- C3, witness: resolving `z.boolean().default(false)` (the source's
`debug` field) from the default descriptor keeps `required = true`. -/
theorem c3_default_wrapper_witness :
    parseDef (.zdefault none (.zboolean none)) [] none =
      parseDef (.zboolean none) [] none ∧
    ((parseDef (.zdefault none (.zboolean none)) []
        (some (mkOptionInfo "debug" (.zdefault none (.zboolean none))))).2.map
      fun x => x.required) = some true :=
  ⟨(c3_default_wrapper none (.zboolean none)).1 [] none,
   (c3_default_wrapper none (.zboolean none)).2 []
     (mkOptionInfo "debug" (.zdefault none (.zboolean none))) rfl rfl⟩

/-- C4, counterexample: for an Intersection whose two children are a
Number leaf and a Boolean leaf (neither is the `ZodAny` marker),
resolution does NOT halt with the state unchanged as the claim asserts:
it continues with the left child, whose handler sets the descriptor's
type to number. -/
theorem c4_intersection_counterexample :
    parseDef (.zintersection none (.znumber none) (.zboolean none)) []
        (some (mkOptionInfo "x" (.znumber none))) ≠
      ([], some (mkOptionInfo "x" (.znumber none))) ∧
    (parseDef (.zintersection none (.znumber none) (.zboolean none)) []
        (some (mkOptionInfo "x" (.znumber none)))).2 =
      some { mkOptionInfo "x" (.znumber none) with type := .number } := by
  decide

/-- C4 (amended: when neither child is the marker type, resolution
continues with the LEFT child rather than halting): resolving an
Intersection continues with the left child when it is not `ZodAny`,
otherwise with the right child when it is not `ZodAny`, and halts with
no further child exactly when both children are `ZodAny`. -/
theorem c4_intersection (al : Option String) (left right : ZodDef)
    (opts : List OptionInfo) (curr : Option OptionInfo) :
    (parseDef (.zintersection al left right) opts curr =
      match parseIntersection left right with
      | some next => parseDef next opts curr
      | none => (opts, curr)) ∧
    (left.isAny = false → parseIntersection left right = some left) ∧
    (left.isAny = true → right.isAny = false →
      parseIntersection left right = some right) ∧
    (left.isAny = true → right.isAny = true → parseIntersection left right = none) := by
  refine ⟨?_, ?_, ?_, ?_⟩
  · by_cases hl : left.isAny = false
    · simp [parseDef, parseIntersection, hl]
    · by_cases hr : right.isAny = false
      · simp [parseDef, parseIntersection, hl, hr]
      · simp [parseDef, parseIntersection, hl, hr]
  · intro hl
    simp [parseIntersection, hl]
  · intro hl hr
    simp [parseIntersection, hl, hr]
  · intro hl hr
    simp [parseIntersection, hl, hr]

/-- C4, witness: the amended theorem at `ZodAny ∧ string` (the marker on
the left): the right child is selected and resolution continues with it. -/
theorem c4_intersection_witness :
    parseDef (.zintersection none (.zany none) (.zstring none)) [] none =
      (match parseIntersection (.zany none) (.zstring none) with
       | some next => parseDef next [] none
       | none => ([], none)) ∧
    parseIntersection (.zany none) (.zstring none) = some (.zstring none) :=
  ⟨(c4_intersection none (.zany none) (.zstring none) [] none).1,
   (c4_intersection none (.zany none) (.zstring none) [] none).2.2.1 rfl rfl⟩

/-- The claim asserts some maximum unwrap depth beyond which resolution
fails; this proposition denies any such bound: a well-formed Optional
chain of EVERY depth `n` under a one-field root object resolves to a
complete one-entry table (and no failure of any kind exists — the
resolver is a total function into tables). -/
def resolvesAtEveryDepth : Prop :=
  ∀ n : Nat, (schemaToOptions (deepObj n)).length = 1

/-- C5, counterexample: the code imposes no maximum unwrap depth and has
no `SchemaTooDeep` failure: chains of every depth resolve successfully,
so no depth bound with failure beyond it exists. -/
theorem c5_unwrap_termination_counterexample : resolvesAtEveryDepth := by
  intro n
  rw [schemaToOptions_deepObj n]
  rfl

/-- C5 (amended: the loop has NO maximum unwrap depth and never fails
with `SchemaTooDeep`; on well-formed input it simply terminates): the
unwrap loop halts after finitely many steps on every (finite, acyclic)
schema def, and well-formed wrapper chains of every depth resolve
successfully to a complete table. -/
theorem c5_unwrap_termination :
    (∀ d : ZodDef, ∃ n, iterChain n d = none) ∧
    (∀ n : Nat, schemaToOptions (deepObj n) =
      [{ name := "x", alias? := none, required := n == 0, autocomplete := none,
         type := .string }]) :=
  ⟨iterChain_halts, schemaToOptions_deepObj⟩

/-- C6: resolving a NativeEnum leaf sets the descriptor's type to string
and its autocomplete to the defined NAMES of the enum mapping (the keys,
not the values), appends nothing, and the loop continues with no further
child (terminal). -/
theorem c6_native_enum (al : Option String) (values : List (String × String))
    (opts : List OptionInfo) (curr : Option OptionInfo) :
    parseDef (.znativeEnum al values) opts curr =
      (opts, curr.map fun o =>
        { o with type := .string, autocomplete := some (values.map Prod.fst) }) ∧
    nextDef (.znativeEnum al values) = none :=
  ⟨by simp [parseDef], rfl⟩

/-- C7: resolving an Enum leaf sets the descriptor's type to string and
its autocomplete to exactly the enum's declared permitted values, in
declared order, appends nothing, and the loop continues with no further
child (terminal). -/
theorem c7_enum (al : Option String) (values : List String)
    (opts : List OptionInfo) (curr : Option OptionInfo) :
    parseDef (.zenum al values) opts curr =
      (opts, curr.map fun o => { o with type := .string, autocomplete := some values }) ∧
    nextDef (.zenum al values) = none :=
  ⟨by simp [parseDef], rfl⟩

/-- C8: a def whose discriminant has no entry in `getParseFn` (`zany`
and `zunknown` here) stops resolution with the whole state unchanged —
no metadata written, nothing appended, no error — and a field whose
outermost node is unrecognized keeps exactly its default descriptor. -/
theorem c8_unrecognized (al : Option String) (opts : List OptionInfo)
    (curr : Option OptionInfo) (key : String) :
    parseDef (.zunknown al) opts curr = (opts, curr) ∧
    parseDef (.zany al) opts curr = (opts, curr) ∧
    schemaToOptions (.zobject none (.scons key (.zunknown al) .snil)) =
      [mkOptionInfo key (.zunknown al)] := by
  refine ⟨by simp [parseDef], by simp [parseDef], ?_⟩
  show (parseObject (.scons key (.zunknown al) .snil) []) = _
  simp [parseObject, parseDef]

/-- An option that carries the empty string as its alias. -/
def emptyAliasOption : OptionInfo :=
  { name := "x", alias? := some "", required := true, autocomplete := none,
    type := OptType.string }

/-- C9, counterexample: an Option Descriptor Table whose single option
carries the alias `""` (it does carry an alias) produces NO entry in the
alias map, because the source's `if (option.alias)` treats the empty
string as falsy — so an alias entry is not present exactly for the
options that carry an alias. -/
theorem c9_tokenizer_config_counterexample :
    (([emptyAliasOption] : List OptionInfo).map fun o => o.name).Nodup ∧
    emptyAliasOption.alias?.isSome = true ∧
    aliasConfig [emptyAliasOption] = [] ∧
    lookupStr (aliasConfig [emptyAliasOption]) "x" = none := by
  decide

/-- C9 (amended: an alias entry is present exactly for the options whose
alias is truthy, i.e. present and non-empty; the no-duplicate-names
table invariant of the data model is an explicit hypothesis): in the
tokenizer configuration built from a table, every option's name appears
in exactly one of the three type-lists — the one matching its type — the
alias map's keys are unique (each primary name maps to at most one
entry), and looking up an option's name in the alias map yields exactly
its alias when that alias is present and non-empty, nothing otherwise. -/
theorem c9_tokenizer_config (t : List OptionInfo)
    (hnd : (t.map fun o => o.name).Nodup) :
    ((aliasConfig t).map Prod.fst).Nodup ∧
    ∀ o ∈ t,
      ((o.name ∈ stringNames t ↔ o.type = .string) ∧
       (o.name ∈ numberNames t ↔ o.type = .number) ∧
       (o.name ∈ booleanNames t ↔ o.type = .boolean)) ∧
      lookupStr (aliasConfig t) o.name =
        (match o.alias? with
         | some a => if a == "" then none else some a
         | none => none) := by
  refine ⟨aliasFold_keys_nodup t [] (by simp), ?_⟩
  intro o ho
  refine ⟨⟨?_, ?_, ?_⟩, aliasFold_lookup t [] o ho hnd rfl⟩
  · exact (mem_filterName t (fun x => x.type == OptType.string) hnd o ho).trans beq_iff_eq
  · exact (mem_filterName t (fun x => x.type == OptType.number) hnd o ho).trans beq_iff_eq
  · exact (mem_filterName t (fun x => x.type == OptType.boolean) hnd o ho).trans beq_iff_eq

/-- C9, witness: in the configuration built from the source's
`commandOptions` table, `userName` resolves to its alias `u`. -/
theorem c9_tokenizer_config_witness :
    lookupStr (aliasConfig (schemaToOptions commandOptions)) "userName" = some "u" := by
  have h := ((c9_tokenizer_config (schemaToOptions commandOptions) (by decide)).2
    { name := "userName", alias? := some "u", required := false, autocomplete := none,
      type := .string } (by decide)).2
  simpa using h

/-- C10, counterexample: a schema whose root is an Optional wrapper
around an Object — the root is NOT an Object node — yields a non-empty
table, because resolution unwraps to the Object and projects its fields. -/
theorem c10_non_object_root_counterexample :
    (ZodDef.zoptional none (.zobject none (.scons "y" (.zstring none) .snil))).isObjectNode
        = false ∧
    schemaToOptions (.zoptional none (.zobject none (.scons "y" (.zstring none) .snil))) ≠
      [] := by
  decide

/-- C10 (amended: restricted to schemas whose resolution chain from the
root never reaches an Object node, e.g. bare leaves or wrapper chains
bottoming out in a leaf): `schemaToOptions` returns the empty table and
raises no error — the leaf and wrapper handlers write metadata only into
an existing current option (there is none at the root), and only
`parseObject` ever appends descriptors. -/
theorem c10_non_object_root (d : ZodDef) (h : noObjectChain d = true) :
    schemaToOptions d = [] := by
  show (parseDef d [] none).1 = []
  exact parseDef_noappend d h [] none

/-- C10, witness: a bare String leaf root yields the empty table. -/
theorem c10_non_object_root_witness : schemaToOptions (.zstring none) = [] :=
  c10_non_object_root (.zstring none) rfl

end Clim365
